import Mathlib

/-!
Shallow embedding of the `amplify-derive` code generators (`src/from.rs`,
`src/wrapper.rs`) and proofs of the specification's claims about them.

Types are represented by their rendered token string (the source compares
types by rendering them with `quote!` and comparing the strings, see
`InstructionEntry::eq`).  Token streams emitted by `quote!` blocks are
modelled either as token lists (for the `from` generator, where the claims
are about the emitted construction expression) or as structured fragments
(for the wrapper generator, where the claims are about which impls are
emitted and with which parameters).  Rust panics (`unreachable!()`,
`expect`, out-of-bounds indexing) are modelled by the distinguished error
value `Err.panicked`; `syn::Error` / the `attr_err!` helper are modelled by
`Err.msg` carrying the message literal passed at the error site.
-/

set_option autoImplicit false

deriving instance DecidableEq for Except

namespace AmplifyDerive

/-! ### Model of the `syn` input structures consumed by the generators -/

/-- A type, identified by its rendered token text (cf. `InstructionEntry::eq`,
which compares `quote! {#ty}` renderings). -/
abbrev Ty := String

/-- One element of a `Meta::List`: a bare path, some other nested meta
(`NestedMeta::Meta` that is not a path), or a literal. -/
inductive NestedMeta where
  | metaPath (p : String)
  | metaOther
  | lit
  deriving DecidableEq

/-- Result of `attr.parse_meta()`: `#[name]`, `#[name(...)]` or `#[name = ...]`. -/
inductive Meta where
  | path
  | list (nested : List NestedMeta)
  | nameValue
  deriving DecidableEq

/-- An attribute attached to a type, variant or field. -/
structure Attr where
  name : String
  meta : Meta
  deriving DecidableEq

/-- `syn::Field`: optional identifier, declared type, attached attributes. -/
structure SynField where
  ident : Option String
  ty : Ty
  attrs : List Attr
  deriving DecidableEq

/-- `syn::Fields`. A braced struct with zero fields is `named []`, which is
distinct from `unit` (exactly as in `syn`). -/
inductive Fields where
  | named (fs : List SynField)
  | unnamed (fs : List SynField)
  | unit
  deriving DecidableEq

/-- The field list iterated by `Fields::iter()`. -/
def Fields.list : Fields → List SynField
  | .named fs => fs
  | .unnamed fs => fs
  | .unit => []

/-- `Fields::len()`. -/
def Fields.len (f : Fields) : Nat := f.list.length

/-- `syn::Variant`. -/
structure Variant where
  ident : String
  fields : Fields
  attrs : List Attr
  deriving DecidableEq

/-- `syn::Data`: the shape of the declared type. `DataUnion` carries named
fields. -/
inductive Data where
  | struct (fields : Fields)
  | enum (variants : List Variant)
  | union (fields : List SynField)
  deriving DecidableEq

/-- `syn::DeriveInput` (generic parameters are not modelled: the claims under
verification do not depend on them). -/
structure DeriveInput where
  ident : String
  attrs : List Attr
  data : Data
  deriving DecidableEq

/-- Outcome of a generation step: a `syn::Error` with its message, or a Rust
panic (`unreachable!()`, `expect`, out-of-bounds indexing). -/
inductive Err where
  | msg (s : String)
  | panicked
  deriving DecidableEq

/-! ### `src/from.rs` — the conversion-instruction extractor -/

/-- The attribute name scanned by the `from` generator (`const NAME`). -/
def fromName : String := "from"

/-- `InstructionEntity` (from.rs): where the converted value is written. -/
inductive InstructionEntity where
  | default
  | unit (variant : Option String)
  | named (variant : Option String) (field : String)
  | unnamed (variant : Option String) (index : Nat)
  deriving DecidableEq

/-- `InstructionEntity::with_fields`. -/
def InstructionEntity.with_fields (fields : Fields) (variant : Option String) :
    InstructionEntity :=
  match fields.len with
  | 0 => .unit variant
  | _ => .default

/-- `InstructionEntity::with_field`. -/
def InstructionEntity.with_field (index : Nat) (f : SynField)
    (variant : Option String) : InstructionEntity :=
  match f.ident with
  | some i => .named variant i
  | none => .unnamed variant index

/-- Tokens contributed by an optional enclosing variant (`:: #v`). -/
def variantTokens : Option String → List String
  | none => []
  | some v => ["::", v]

/-- `InstructionEntity::into_token_stream2`: the construction expression
emitted into the body of the generated conversion, as a token list. -/
def InstructionEntity.into_token_stream2 : InstructionEntity → List String
  | .default => ["Self", "::", "default", "(", ")", ";"]
  | .unit v => ["Self"] ++ variantTokens v
  | .named v f =>
    ["Self"] ++ variantTokens v ++
      ["\x7b", f, ":", "v", ".", "into", "(", ")", ",", "..",
       "Default", "::", "default", "(", ")", "\x7d"]
  | .unnamed v i =>
    ["Self"] ++ variantTokens v ++ ["("] ++
      (List.replicate i ["Default", "::", "default", "(", ")", ","]).flatten ++
      ["v", ".", "into", "(", ")", ",", "..",
       "Default", "::", "default", "(", ")", ")"]

/-- `InstructionEntry` (from.rs): a source type paired with a target entity.
Its `PartialEq` compares only the rendered source types. -/
structure InstructionEntry where
  source : Ty
  entity : InstructionEntity
  deriving DecidableEq

/-- The message for the empty `#[from]` attribute on a multi-field entity. -/
def fromEmptyMsg : String :=
  "empty `#[from]` attribute allowed only for entities with a single field; " ++
  "for multi-field entities specify `#[from]` right ahead of the target field"

/-- Inner loop of `InstructionEntry::parse` over a `Meta::List`'s nested
entries: each bare path becomes an entry; other shapes are diagnostics. -/
def parseNested (entity : InstructionEntity) :
    List NestedMeta → Except Err (List InstructionEntry)
  | [] => .ok []
  | .metaPath p :: rest => do
    let r ← parseNested entity rest
    .ok (⟨p, entity⟩ :: r)
  | .metaOther :: _ => .error (.msg "wrong type name")
  | .lit :: _ => .error (.msg "unexpected literal")

/-- `InstructionEntry::parse`: scan an attribute list for `from` attributes,
collecting instruction entries for the given target entity. -/
def InstructionEntry.parse (fields : Fields) (entity : InstructionEntity) :
    List Attr → Except Err (List InstructionEntry)
  | [] => .ok []
  | a :: rest =>
    if a.name == fromName then
      match a.meta with
      | .path =>
        match fields.len, fields.list.head? with
        | 1, some f => do
          let r ← InstructionEntry.parse fields entity rest
          .ok (⟨f.ty, entity⟩ :: r)
        | _, _ => .error (.msg fromEmptyMsg)
      | .list nested => do
        let here ← parseNested entity nested
        let r ← InstructionEntry.parse fields entity rest
        .ok (here ++ r)
      | .nameValue => .error (.msg "do not use quotes; use `()` instead")
    else InstructionEntry.parse fields entity rest

/-- The duplicate-source-type message.  The source formats it with
`format!("Attribute `#[{}]`: repeated use of type `{}`", NAME, quote! {ty})`;
`quote! {ty}` renders the literal identifier `ty`, so the message text is a
constant that never mentions the repeated type. -/
def fromDupMsg : String := "Attribute `#[from]`: repeated use of type `ty`"

/-- `InstructionTable`: insertion-ordered entries. -/
abbrev InstructionTable := List InstructionEntry

/-- `InstructionTable::extend`: push entries one by one, failing on the first
entry whose source type already occurs in the table. -/
def InstructionTable.extend (table : InstructionTable) :
    List InstructionEntry → Except Err InstructionTable
  | [] => .ok table
  | e :: rest =>
    if table.any (fun x => x.source == e.source) then .error (.msg fromDupMsg)
    else InstructionTable.extend (table ++ [e]) rest

/-- The per-field loop of `InstructionTable::parse`
(`for (index, field) in fields.iter().enumerate()`). -/
def InstructionTable.parseFields (fields : Fields) (variant : Option String) :
    List SynField → Nat → InstructionTable → Except Err InstructionTable
  | [], _, t => .ok t
  | f :: rest, i, t => do
    let es ← InstructionEntry.parse fields
      (InstructionEntity.with_field i f variant) f.attrs
    let t ← InstructionTable.extend t es
    InstructionTable.parseFields fields variant rest (i + 1) t

/-- `InstructionTable::parse`: scan the entity-level attributes, then every
field's own attributes. -/
def InstructionTable.parse (table : InstructionTable) (fields : Fields)
    (attrs : List Attr) (variant : Option String) :
    Except Err InstructionTable := do
  let es ← InstructionEntry.parse fields
    (InstructionEntity.with_fields fields variant) attrs
  let t ← InstructionTable.extend table es
  InstructionTable.parseFields fields variant fields.list 0 t

/-- One generated conversion implementation: `impl From<source> for Self`
whose body is the entity's construction expression. -/
structure FromImpl where
  source : Ty
  body : List String
  deriving DecidableEq

/-- `InstructionTable::into_token_stream2`: one conversion per entry, in
table order. -/
def InstructionTable.into_token_stream2 (t : InstructionTable) :
    List FromImpl :=
  t.map (fun e => ⟨e.source, e.entity.into_token_stream2⟩)

/-- `inner_struct` (from.rs). -/
def from_inner_struct (input : DeriveInput) (fields : Fields) :
    Except Err (List FromImpl) := do
  let t ← InstructionTable.parse [] fields input.attrs none
  .ok (InstructionTable.into_token_stream2 t)

/-- The diagnostic for a top-level `from` attribute on an enum. -/
def fromTopLevelMsg : String :=
  "top-level attribute is not allowed, use it for specific fields or variants"

/-- The per-variant loop of `inner_enum`. -/
def from_enum_loop : List Variant → InstructionTable →
    Except Err InstructionTable
  | [], t => .ok t
  | v :: rest, t => do
    let t ← InstructionTable.parse t v.fields v.attrs (some v.ident)
    from_enum_loop rest t

/-- `inner_enum` (from.rs): reject a top-level `from` attribute, else scan
every variant. -/
def from_inner_enum (input : DeriveInput) (variants : List Variant) :
    Except Err (List FromImpl) :=
  if input.attrs.any (fun a => a.name == fromName) then
    .error (.msg fromTopLevelMsg)
  else do
    let t ← from_enum_loop variants []
    .ok (InstructionTable.into_token_stream2 t)

/-- `inner_union` (from.rs). -/
def from_inner_union (input : DeriveInput) (fs : List SynField) :
    Except Err (List FromImpl) := do
  let t ← InstructionTable.parse [] (.named fs) input.attrs none
  .ok (InstructionTable.into_token_stream2 t)

/-- `inner` (from.rs): dispatch on the declaration's shape. -/
def from_inner (input : DeriveInput) : Except Err (List FromImpl) :=
  match input.data with
  | .struct fields => from_inner_struct input fields
  | .enum vs => from_inner_enum input vs
  | .union fs => from_inner_union input fs

/-! ### `src/wrapper.rs` — capability enumerations and resolution -/

/-- The immutable capability family (`enum Wrapper`), in declaration order. -/
inductive Wrapper where
  | NoRefs
  | FromStr | Display | Debug | Octal | FromHex
  | LowerHex | UpperHex | LowerExp | UpperExp
  | Deref | AsRef | AsSlice | Borrow | BorrowSlice
  | Index | IndexRange | IndexFull | IndexFrom | IndexTo
  | IndexInclusive | IndexToInclusive
  | Neg | Add | Sub | Mul | Div | Rem
  | Not | Shl | Shr | BitAnd | BitOr | BitXor
  | Hex | Exp | NumberFmt | RangeOps | MathOps | BoolOps | BitOps
  deriving DecidableEq

/-- The mutable capability family (`enum WrapperMut`), in declaration order. -/
inductive WrapperMut where
  | NoRefs
  | DerefMut | AsMut | AsSliceMut | BorrowMut | BorrowSliceMut
  | IndexMut | IndexRangeMut | IndexFullMut | IndexFromMut | IndexToMut
  | IndexInclusiveMut | IndexToInclusiveMut
  | AddAssign | SubAssign | MulAssign | DivAssign | RemAssign
  | ShlAssign | ShrAssign
  | BitAndAssign | BitOrAssign | BitXorAssign
  | RangeMut | MathAssign | BoolAssign | BitAssign
  deriving DecidableEq

/-- The `FromPath` trait of wrapper.rs, as an explicit dictionary. -/
structure FromPathImpl (α : Type) where
  IDENT : String
  NO_REFS : α
  default_set : List α
  is_not_ref : α → Bool
  from_path : String → Option α
  populate : α → List α → List α

/-- `<Wrapper as FromPath>::from_path`, on the first path segment's name. -/
def Wrapper.from_path (s : String) : Option Wrapper :=
  match s with
  | "FromStr" => some .FromStr
  | "Display" => some .Display
  | "Debug" => some .Debug
  | "Octal" => some .Octal
  | "FromHex" => some .FromHex
  | "LowerHex" => some .LowerHex
  | "UpperHex" => some .UpperHex
  | "LowerExp" => some .LowerExp
  | "UpperExp" => some .UpperExp
  | "NoRefs" => some .NoRefs
  | "AsRef" => some .AsRef
  | "AsSlice" => some .AsSlice
  | "Deref" => some .Deref
  | "Borrow" => some .Borrow
  | "BorrowSlice" => some .BorrowSlice
  | "Index" => some .Index
  | "IndexRange" => some .IndexRange
  | "IndexFull" => some .IndexFull
  | "IndexFrom" => some .IndexFrom
  | "IndexTo" => some .IndexTo
  | "IndexInclusive" => some .IndexInclusive
  | "IndexToInclusive" => some .IndexToInclusive
  | "Add" => some .Add
  | "Neg" => some .Neg
  | "Not" => some .Not
  | "Sub" => some .Sub
  | "Mul" => some .Mul
  | "Div" => some .Div
  | "Rem" => some .Rem
  | "Shl" => some .Shl
  | "Shr" => some .Shr
  | "BitAnd" => some .BitAnd
  | "BitOr" => some .BitOr
  | "BitXor" => some .BitXor
  | "Hex" => some .Hex
  | "Exp" => some .Exp
  | "NumberFmt" => some .NumberFmt
  | "RangeOps" => some .RangeOps
  | "MathOps" => some .MathOps
  | "BoolOps" => some .BoolOps
  | "BitOps" => some .BitOps
  | _ => none

/-- `<Wrapper as FromPath>::populate`: push the capability itself, or — for a
group — extend with its fixed member list. -/
def Wrapper.populate (w : Wrapper) (list : List Wrapper) : List Wrapper :=
  match w with
  | .Hex => list ++ [.LowerHex, .UpperHex, .FromHex]
  | .Exp => list ++ [.LowerExp, .UpperExp]
  | .NumberFmt => list ++ [.LowerHex, .UpperHex, .LowerExp, .UpperExp, .Octal]
  | .RangeOps => list ++
      [.IndexRange, .IndexFrom, .IndexTo, .IndexInclusive, .IndexToInclusive,
       .IndexFull]
  | .MathOps => list ++ [.Neg, .Add, .Sub, .Mul, .Div, .Rem]
  | .BoolOps => list ++ [.Not, .BitAnd, .BitOr, .BitXor]
  | .BitOps => list ++ [.Not, .BitAnd, .BitOr, .BitXor, .Shl, .Shr]
  | x => list ++ [x]

/-- The `FromPath` dictionary for the immutable family. -/
def wrapperImmut : FromPathImpl Wrapper where
  IDENT := "wrapper"
  NO_REFS := .NoRefs
  default_set := [.AsRef, .Borrow]
  is_not_ref := fun w => !(w == .AsRef) && !(w == .Borrow)
  from_path := Wrapper.from_path
  populate := Wrapper.populate

/-- `<WrapperMut as FromPath>::from_path`. -/
def WrapperMut.from_path (s : String) : Option WrapperMut :=
  match s with
  | "NoRefs" => some .NoRefs
  | "DerefMut" => some .DerefMut
  | "AsMut" => some .AsMut
  | "AsSliceMut" => some .AsSliceMut
  | "BorrowMut" => some .BorrowMut
  | "BorrowSliceMut" => some .BorrowSliceMut
  | "IndexMut" => some .IndexMut
  | "IndexRangeMut" => some .IndexRangeMut
  | "IndexFullMut" => some .IndexFullMut
  | "IndexFromMut" => some .IndexFromMut
  | "IndexToMut" => some .IndexToMut
  | "IndexInclusiveMut" => some .IndexInclusiveMut
  | "IndexToInclusiveMut" => some .IndexToInclusiveMut
  | "AddAssign" => some .AddAssign
  | "SubAssign" => some .SubAssign
  | "MulAssign" => some .MulAssign
  | "DivAssign" => some .DivAssign
  | "RemAssign" => some .RemAssign
  | "ShlAssign" => some .ShlAssign
  | "ShrAssign" => some .ShrAssign
  | "BitAndAssign" => some .BitAndAssign
  | "BitOrAssign" => some .BitOrAssign
  | "BitXorAssign" => some .BitXorAssign
  | "RangeMut" => some .RangeMut
  | "MathAssign" => some .MathAssign
  | "BoolAssign" => some .BoolAssign
  | "BitAssign" => some .BitAssign
  | _ => none

/-- `<WrapperMut as FromPath>::populate`. -/
def WrapperMut.populate (w : WrapperMut) (list : List WrapperMut) :
    List WrapperMut :=
  match w with
  | .RangeMut => list ++
      [.IndexRangeMut, .IndexFromMut, .IndexToMut, .IndexInclusiveMut,
       .IndexToInclusiveMut, .IndexFullMut]
  | .MathAssign => list ++
      [.AddAssign, .SubAssign, .MulAssign, .DivAssign, .RemAssign]
  | .BoolAssign => list ++ [.BitAndAssign, .BitOrAssign, .BitXorAssign]
  | .BitAssign => list ++
      [.BitAndAssign, .BitOrAssign, .BitXorAssign, .ShlAssign, .ShrAssign]
  | x => list ++ [x]

/-- The `FromPath` dictionary for the mutable family. -/
def wrapperMut : FromPathImpl WrapperMut where
  IDENT := "wrapper_mut"
  NO_REFS := .NoRefs
  default_set := [.AsMut, .BorrowMut]
  is_not_ref := fun w => !(w == .AsMut) && !(w == .BorrowMut)
  from_path := WrapperMut.from_path
  populate := WrapperMut.populate

/-- The diagnostic for a malformed `wrapper`/`wrapper_mut` attribute shape. -/
def wrapperShapeMsg : String := "Wrapper attributes must be in a form of type list"

/-- The diagnostic for an unknown capability name. -/
def wrapperUnknownMsg : String := "Unrecognized wrapper parameter"

/-- Inner loop of `get_wrappers` over a `Meta::List`'s nested entries:
resolve each bare path and let it populate the accumulated list. -/
def collectNested {α : Type} (fp : FromPathImpl α) :
    List NestedMeta → List α → Except Err (List α)
  | [], ws => .ok ws
  | .metaPath p :: rest, ws =>
    match fp.from_path p with
    | some w => collectNested fp rest (fp.populate w ws)
    | none => .error (.msg wrapperUnknownMsg)
  | _ :: _, _ => .error (.msg wrapperShapeMsg)

/-- Outer loop of `get_wrappers` over the input's attributes filtered by the
family's attribute name. -/
def collectAttrs {α : Type} (fp : FromPathImpl α) :
    List Attr → List α → Except Err (List α)
  | [], ws => .ok ws
  | a :: rest, ws =>
    if a.name == fp.IDENT then
      match a.meta with
      | .list nested => do
        let ws ← collectNested fp nested ws
        collectAttrs fp rest ws
      | _ => .error (.msg wrapperShapeMsg)
    else collectAttrs fp rest ws

/-- The final step of `get_wrappers`: if the no-references marker is present,
keep only the capabilities `is_not_ref` accepts. -/
def applyNoRefs {α : Type} [DecidableEq α] (fp : FromPathImpl α)
    (ws : List α) : List α :=
  if ws.any (fun w => decide (w = fp.NO_REFS)) then ws.filter fp.is_not_ref
  else ws

/-- `get_wrappers` (wrapper.rs): the family's default set, extended by every
capability named in the family's attributes, then the no-references filter. -/
def get_wrappers {α : Type} [DecidableEq α] (fp : FromPathImpl α)
    (input : DeriveInput) : Except Err (List α) := do
  let ws ← collectAttrs fp input.attrs fp.default_set
  .ok (applyNoRefs fp ws)

/-! ### `src/wrapper.rs` — wrap-target resolution (`get_params`) -/

/-- The token naming the wrapped field in emitted code: a field identifier
for named structs, a numeric index for tuple structs. -/
inductive FieldRef where
  | named (s : String)
  | idx (i : Nat)
  deriving DecidableEq

/-- The wrap-marker attribute's name. -/
def wrapName : String := "wrap"

/-- `get_params` diagnostics. -/
def wrapTwiceMsg : String := "Only a single field may be wrapped"

def wrapAmbiguousMsg : String :=
  "When the structure has multiple fields you must point out the one you " ++
  "will wrap by using `#[wrap]` attribute"

def wrapEnumMsg : String := "Deriving wrapper is not supported in enums"

def wrapUnionMsg : String := "Deriving wrapper is not supported in unions"

def wrapUnitMsg : String := "Deriving wrapper is meaningless for unit structs"

/-- The inner loop of `get_params` over one field's attributes: every `wrap`
attribute sets the wrap source; a second occurrence (anywhere) is fatal.
`mk` extracts the field's reference and type (it panics, via `expect`, when
a named field has no identifier). -/
def wrapScanAttrs {α : Type} (mk : Except Err α) :
    List Attr → Option α → Except Err (Option α)
  | [], src => .ok src
  | a :: rest, src =>
    if a.name == wrapName then
      match src with
      | some _ => .error (.msg wrapTwiceMsg)
      | none => do
        let v ← mk
        wrapScanAttrs mk rest (some v)
    else wrapScanAttrs mk rest src

/-- The outer loop of `get_params` over the fields (with their indices). -/
def wrapScanFields {α : Type} (mk : SynField → Nat → Except Err α) :
    List SynField → Nat → Option α → Except Err (Option α)
  | [], _, src => .ok src
  | f :: rest, i, src => do
    let src ← wrapScanAttrs (mk f i) f.attrs src
    wrapScanFields mk rest (i + 1) src

/-- The extractor for a named field: `field.ident.clone().expect(...)`. -/
def mkNamed (f : SynField) (_i : Nat) : Except Err (FieldRef × Ty) :=
  match f.ident with
  | some id => .ok (.named id, f.ty)
  | none => .error .panicked

/-- The extractor for an unnamed field: `Index::from(index)`. -/
def mkUnnamed (f : SynField) (i : Nat) : Except Err (FieldRef × Ty) :=
  .ok (.idx i, f.ty)

/-- `get_params` (wrapper.rs): resolve the wrapped field and its type.
`fields.named[0]` / `fields.unnamed[0]` on a zero-field braced/tuple struct
is an out-of-bounds panic, modelled by `Err.panicked`. -/
def get_params (input : DeriveInput) : Except Err (FieldRef × Ty) :=
  match input.data with
  | .enum _ => .error (.msg wrapEnumMsg)
  | .union _ => .error (.msg wrapUnionMsg)
  | .struct flds =>
    match flds with
    | .named fs =>
      match fs.head? with
      | none => .error .panicked
      | some f0 => do
        let src ← wrapScanFields mkNamed fs 0 none
        match src with
        | some r => .ok r
        | none =>
          if fs.length > 1 then .error (.msg wrapAmbiguousMsg)
          else
            match f0.ident with
            | some id => .ok (.named id, f0.ty)
            | none => .error .panicked
    | .unnamed fs =>
      match fs.head? with
      | none => .error .panicked
      | some f0 => do
        let src ← wrapScanFields mkUnnamed fs 0 none
        match src with
        | some r => .ok r
        | none =>
          if fs.length > 1 then .error (.msg wrapAmbiguousMsg)
          else .ok (.idx 0, f0.ty)
    | .unit => .error (.msg wrapUnitMsg)

/-! ### `src/wrapper.rs` — per-capability code synthesis -/

/-- The index-argument shapes appearing in the `Index`/`IndexMut` impls. -/
inductive IdxArg where
  | usize | range | rangeFull | rangeFrom | rangeTo
  | rangeInclusive | rangeToInclusive
  deriving DecidableEq

/-- One emitted trait-implementation fragment.  Each constructor mirrors one
`quote!` arm of `Wrapper::into_token_stream2` /
`WrapperMut::into_token_stream2` (or of the `inner` / `inner_mut` wrappers),
carrying the parameters that the emitted tokens depend on: the wrapped
field's reference, the wrapped type, and — for indexing impls — the
index-argument shape of the `Index<...>` head and the shape used inside the
declared `type Output = <inner as Index<...>>::Output`. -/
inductive Fragment where
  | fromStrImpl (inner : Ty)
  | fmtFwd (trait : String) (field : FieldRef)
  | fromHexImpl (inner : Ty)
  | derefImpl (inner : Ty) (field : FieldRef)
  | asRefImpl (inner : Ty) (field : FieldRef)
  | asSliceImpl (field : FieldRef)
  | borrowImpl (inner : Ty) (field : FieldRef)
  | borrowSliceImpl (field : FieldRef)
  | indexImpl (arg : IdxArg) (outArg : IdxArg) (inner : Ty) (field : FieldRef)
  | unOpImpl (trait : String) (field : FieldRef)
  | binOpImpl (trait : String) (field : FieldRef)
  | wrapperTraitImpl (inner : Ty) (field : FieldRef)
  | reverseFromImpl (inner : Ty) (field : FieldRef)
  | derefMutImpl (field : FieldRef)
  | asMutImpl (field : FieldRef)
  | asSliceMutImpl (field : FieldRef)
  | borrowMutImpl (field : FieldRef)
  | borrowSliceMutImpl (field : FieldRef)
  | indexMutImpl (arg : IdxArg) (field : FieldRef)
  | assignOpImpl (trait : String) (field : FieldRef)
  | wrapperMutTraitImpl (field : FieldRef)
  deriving DecidableEq

/-- `Wrapper::into_token_stream2`: the emitted impl for one leaf capability.
The `NoRefs` marker and the seven group capabilities fall into the
`unreachable!()` arm, modelled as `none`.  Note the `IndexToInclusive` arm:
the impl head and the `index` argument use `RangeToInclusive<usize>`, but
the declared `Output` is `<inner as Index<RangeInclusive<usize>>>::Output`
(source lines 465-477). -/
def Wrapper.into_token_stream2 (w : Wrapper) (frm : Ty) (field : FieldRef) :
    Option Fragment :=
  match w with
  | .FromStr => some (.fromStrImpl frm)
  | .Display => some (.fmtFwd "Display" field)
  | .Debug => some (.fmtFwd "Debug" field)
  | .Octal => some (.fmtFwd "Octal" field)
  | .FromHex => some (.fromHexImpl frm)
  | .LowerHex => some (.fmtFwd "LowerHex" field)
  | .UpperHex => some (.fmtFwd "UpperHex" field)
  | .LowerExp => some (.fmtFwd "LowerExp" field)
  | .UpperExp => some (.fmtFwd "UpperExp" field)
  | .Deref => some (.derefImpl frm field)
  | .AsRef => some (.asRefImpl frm field)
  | .AsSlice => some (.asSliceImpl field)
  | .Borrow => some (.borrowImpl frm field)
  | .BorrowSlice => some (.borrowSliceImpl field)
  | .Index => some (.indexImpl .usize .usize frm field)
  | .IndexRange => some (.indexImpl .range .range frm field)
  | .IndexFrom => some (.indexImpl .rangeFrom .rangeFrom frm field)
  | .IndexTo => some (.indexImpl .rangeTo .rangeTo frm field)
  | .IndexInclusive =>
    some (.indexImpl .rangeInclusive .rangeInclusive frm field)
  | .IndexToInclusive =>
    some (.indexImpl .rangeToInclusive .rangeInclusive frm field)
  | .IndexFull => some (.indexImpl .rangeFull .rangeFull frm field)
  | .Neg => some (.unOpImpl "Neg" field)
  | .Not => some (.unOpImpl "Not" field)
  | .Add => some (.binOpImpl "Add" field)
  | .Sub => some (.binOpImpl "Sub" field)
  | .Mul => some (.binOpImpl "Mul" field)
  | .Div => some (.binOpImpl "Div" field)
  | .Rem => some (.binOpImpl "Rem" field)
  | .Shl => some (.binOpImpl "Shl" field)
  | .Shr => some (.binOpImpl "Shr" field)
  | .BitAnd => some (.binOpImpl "BitAnd" field)
  | .BitOr => some (.binOpImpl "BitOr" field)
  | .BitXor => some (.binOpImpl "BitXor" field)
  | .NoRefs | .Hex | .Exp | .NumberFmt
  | .RangeOps | .MathOps | .BoolOps | .BitOps => none

/-- `WrapperMut::into_token_stream2`; the `NoRefs` marker and the four group
capabilities fall into the `unreachable!()` arm, modelled as `none`. -/
def WrapperMut.into_token_stream2 (w : WrapperMut) (_frm : Ty)
    (field : FieldRef) : Option Fragment :=
  match w with
  | .DerefMut => some (.derefMutImpl field)
  | .AsMut => some (.asMutImpl field)
  | .AsSliceMut => some (.asSliceMutImpl field)
  | .BorrowMut => some (.borrowMutImpl field)
  | .BorrowSliceMut => some (.borrowSliceMutImpl field)
  | .IndexMut => some (.indexMutImpl .usize field)
  | .IndexRangeMut => some (.indexMutImpl .range field)
  | .IndexFromMut => some (.indexMutImpl .rangeFrom field)
  | .IndexToMut => some (.indexMutImpl .rangeTo field)
  | .IndexInclusiveMut => some (.indexMutImpl .rangeInclusive field)
  | .IndexToInclusiveMut => some (.indexMutImpl .rangeToInclusive field)
  | .IndexFullMut => some (.indexMutImpl .rangeFull field)
  | .AddAssign => some (.assignOpImpl "AddAssign" field)
  | .SubAssign => some (.assignOpImpl "SubAssign" field)
  | .MulAssign => some (.assignOpImpl "MulAssign" field)
  | .DivAssign => some (.assignOpImpl "DivAssign" field)
  | .RemAssign => some (.assignOpImpl "RemAssign" field)
  | .ShlAssign => some (.assignOpImpl "ShlAssign" field)
  | .ShrAssign => some (.assignOpImpl "ShrAssign" field)
  | .BitAndAssign => some (.assignOpImpl "BitAndAssign" field)
  | .BitOrAssign => some (.assignOpImpl "BitOrAssign" field)
  | .BitXorAssign => some (.assignOpImpl "BitXorAssign" field)
  | .NoRefs | .RangeMut | .MathAssign | .BoolAssign | .BitAssign => none

/-- Map the resolved capability list through the immutable synthesizer; a
capability falling into the `unreachable!()` arm aborts with a panic. -/
def synthList (frm : Ty) (field : FieldRef) :
    List Wrapper → Except Err (List Fragment)
  | [] => .ok []
  | w :: rest =>
    match Wrapper.into_token_stream2 w frm field with
    | none => .error .panicked
    | some f => do
      let r ← synthList frm field rest
      .ok (f :: r)

/-- Mutable-family analogue of `synthList`. -/
def synthListMut (frm : Ty) (field : FieldRef) :
    List WrapperMut → Except Err (List Fragment)
  | [] => .ok []
  | w :: rest =>
    match WrapperMut.into_token_stream2 w frm field with
    | none => .error .panicked
    | some f => do
      let r ← synthListMut frm field rest
      .ok (f :: r)

/-- `inner` (wrapper.rs): resolve the wrap target and the immutable
capability set, then emit the `Wrapper` trait impl, the reverse `From`
conversion, and one impl per resolved capability. -/
def wrapper_inner (input : DeriveInput) : Except Err (List Fragment) := do
  let (field, frm) ← get_params input
  let ws ← get_wrappers wrapperImmut input
  let derived ← synthList frm field ws
  .ok (.wrapperTraitImpl frm field :: .reverseFromImpl frm field :: derived)

/-- `inner_mut` (wrapper.rs). -/
def wrapper_inner_mut (input : DeriveInput) : Except Err (List Fragment) := do
  let (field, frm) ← get_params input
  let ws ← get_wrappers wrapperMut input
  let derived ← synthListMut frm field ws
  .ok (.wrapperMutTraitImpl field :: derived)

/-! ### Auxiliary definitions used by the claim statements -/

/-- Count of `wrap` attributes carried by one field. -/
def fieldWrapCount (f : SynField) : Nat :=
  (f.attrs.filter (fun a => a.name == wrapName)).length

/-- Total number of `wrap` attribute occurrences across a field list. -/
def wrapTotal (fs : List SynField) : Nat := (fs.map fieldWrapCount).sum

/-- Whether a field carries the `wrap` marker (at least one occurrence). -/
def hasWrapMarker (f : SynField) : Bool :=
  f.attrs.any (fun a => a.name == wrapName)

/-- Resolve a list of capability names through the family's `from_path`,
failing on the first unrecognized name. -/
def resolveNames {α : Type} (fp : FromPathImpl α) :
    List String → Option (List α)
  | [] => some []
  | n :: rest =>
    match fp.from_path n with
    | some w =>
      match resolveNames fp rest with
      | some ws => some (w :: ws)
      | none => none
    | none => none

/-- A single-field tuple struct annotated with one capability-list attribute
of the given name (`#[ident(names...)]`). -/
def wrapperAttrInput (ident : String) (names : List String) : DeriveInput :=
  ⟨"S", [⟨ident, .list (names.map .metaPath)⟩],
   .struct (.unnamed [⟨none, "u8", []⟩])⟩

/-- A single-named-field struct annotated `#[from(t, t)]`. -/
def fromDupInput (t : String) : DeriveInput :=
  ⟨"S", [⟨"from", .list [.metaPath t, .metaPath t]⟩],
   .struct (.named [⟨some "x", "u8", []⟩])⟩

/-- A single-named-field struct (`x : u8`) annotated with a bare `#[from]`. -/
def fromBareInput : DeriveInput :=
  ⟨"Demo", [⟨"from", .path⟩], .struct (.named [⟨some "x", "u8", []⟩])⟩

/-- An enum (one unit variant) carrying a top-level bare `#[from]`. -/
def enumTopFromInput : DeriveInput :=
  ⟨"E", [⟨"from", .path⟩], .enum [⟨"V", .unit, []⟩]⟩

/-- The field list of the wrap-marker counterexample: field `a` carries the
`wrap` marker twice, field `b` carries none. -/
def wrapTwiceFields : List SynField :=
  [⟨some "a", "u8", [⟨"wrap", .path⟩, ⟨"wrap", .path⟩]⟩,
   ⟨some "b", "u16", []⟩]

/-- A two-field struct in which exactly one field carries the `wrap`
marker — but carries it twice. -/
def wrapTwiceInput : DeriveInput := ⟨"S", [], .struct (.named wrapTwiceFields)⟩

/-- A plain single-field tuple struct with no attributes at all. -/
def plainStructInput : DeriveInput :=
  ⟨"S", [], .struct (.unnamed [⟨none, "u8", []⟩])⟩

/-- A two-named-field struct whose second field carries one `wrap` marker. -/
def wrapMarkedInput : DeriveInput :=
  ⟨"S", [],
   .struct (.named [⟨some "a", "u8", []⟩, ⟨some "b", "u16", [⟨"wrap", .path⟩]⟩])⟩

/-! ### Helper lemmas -/

lemma ok_bind {ε α β : Type} (a : α) (f : α → Except ε β) :
    (Except.ok a >>= f) = f a := rfl

lemma error_bind {ε α β : Type} (e : ε) (f : α → Except ε β) :
    ((Except.error e : Except ε α) >>= f) = Except.error e := rfl

lemma mem_applyNoRefs_excluded {α : Type} [DecidableEq α] (fp : FromPathImpl α)
    (pre : List α) (h : fp.NO_REFS ∈ pre) {x : α}
    (hx : fp.is_not_ref x = false) :
    x ∉ applyNoRefs fp pre := by
  have hany : (pre.any fun w => decide (w = fp.NO_REFS)) = true :=
    List.any_eq_true.mpr ⟨fp.NO_REFS, h, by simp⟩
  simp only [applyNoRefs, hany, if_true]
  intro hmem
  have h2 := (List.mem_filter.mp hmem).2
  rw [hx] at h2
  exact Bool.false_ne_true h2

lemma get_wrappers_eq_applyNoRefs {α : Type} [DecidableEq α]
    (fp : FromPathImpl α) (input : DeriveInput) (pre : List α)
    (h : collectAttrs fp input.attrs fp.default_set = .ok pre) :
    get_wrappers fp input = .ok (applyNoRefs fp pre) := by
  unfold get_wrappers
  rw [h]
  rfl

lemma collectAttrs_no_family_attr {α : Type} (fp : FromPathImpl α) :
    ∀ (attrs : List Attr) (ws : List α),
      (∀ a ∈ attrs, a.name ≠ fp.IDENT) →
      collectAttrs fp attrs ws = .ok ws := by
  intro attrs
  induction attrs with
  | nil => intro ws _; rfl
  | cons a rest ih =>
    intro ws h
    unfold collectAttrs
    rw [if_neg]
    · exact ih ws (fun b hb => h b (List.mem_cons_of_mem a hb))
    · simp only [beq_iff_eq]
      exact h a (List.mem_cons_self a rest)

lemma get_wrappers_default (input : DeriveInput)
    (h : ∀ a ∈ input.attrs, a.name ≠ "wrapper") :
    get_wrappers wrapperImmut input = .ok [Wrapper.AsRef, .Borrow] := by
  unfold get_wrappers
  rw [collectAttrs_no_family_attr wrapperImmut input.attrs _ h]
  rfl

/-! ### Claim theorems: closed evaluations -/

/-- C1: the claim asserts that duplicate `from` source types abort generation
with a message naming the repeated type.  Generation does fail, but the
message is the constant `"Attribute `#[from]`: repeated use of type `ty`"`:
(the source interpolates `quote! {ty}`, the literal identifier `ty`, instead
of the duplicated type), so the same text is produced for `#[from(A, A)]`
and `#[from(B, B)]` — the repeated type is never named. -/
theorem from_duplicate_message_is_placeholder :
    from_inner (fromDupInput "A") = .error (.msg fromDupMsg) ∧
    from_inner (fromDupInput "B") = .error (.msg fromDupMsg) ∧
    fromDupMsg = "Attribute `#[from]`: repeated use of type `ty`" := by
  refine ⟨by decide, by decide, rfl⟩

/-- C2: the claim asserts the synthesizer's defect branch is unreachable for
every requested capability combination.  Requesting the `NoRefs` marker
refutes it: `NoRefs` is pushed by `populate`, survives the `is_not_ref`
filter (which drops only `AsRef`/`Borrow`, resp. `AsMut`/`BorrowMut`), and
reaches `into_token_stream2`'s `unreachable!()` arm, aborting generation
with a panic — in both capability families. -/
theorem norefs_reaches_synthesizer :
    get_wrappers wrapperImmut (wrapperAttrInput "wrapper" ["NoRefs"]) =
      .ok [Wrapper.NoRefs] ∧
    Wrapper.into_token_stream2 .NoRefs "u8" (.idx 0) = none ∧
    wrapper_inner (wrapperAttrInput "wrapper" ["NoRefs"]) = .error .panicked ∧
    get_wrappers wrapperMut (wrapperAttrInput "wrapper_mut" ["NoRefs"]) =
      .ok [WrapperMut.NoRefs] ∧
    WrapperMut.into_token_stream2 .NoRefs "u8" (.idx 0) = none ∧
    wrapper_inner_mut (wrapperAttrInput "wrapper_mut" ["NoRefs"]) =
      .error .panicked := by
  refine ⟨by decide, rfl, by decide, by decide, rfl, by decide⟩

/-- C4: resolving `wrapper(NumberFmt)` yields exactly the same final
capability list as resolving
`wrapper(LowerHex, UpperHex, LowerExp, UpperExp, Octal)` directly. -/
theorem numberfmt_group_roundtrip :
    get_wrappers wrapperImmut (wrapperAttrInput "wrapper" ["NumberFmt"]) =
      get_wrappers wrapperImmut (wrapperAttrInput "wrapper"
        ["LowerHex", "UpperHex", "LowerExp", "UpperExp", "Octal"]) ∧
    get_wrappers wrapperImmut (wrapperAttrInput "wrapper" ["NumberFmt"]) =
      .ok [Wrapper.AsRef, .Borrow, .LowerHex, .UpperHex, .LowerExp,
           .UpperExp, .Octal] := by
  refine ⟨by decide, by decide⟩

/-- C5 counterexample: the claim asserts the final capability set never
contains a capability more than once.  Requesting `wrapper(AsRef)` — already
a member of the default set — yields `[AsRef, Borrow, AsRef]`, with `AsRef`
occurring twice: `populate` appends unconditionally and nothing
de-duplicates. -/
theorem capability_set_duplicate_counterexample :
    get_wrappers wrapperImmut (wrapperAttrInput "wrapper" ["AsRef"]) =
      .ok [Wrapper.AsRef, .Borrow, .AsRef] ∧
    [Wrapper.AsRef, .Borrow, .AsRef].count Wrapper.AsRef = 2 := by
  refine ⟨by decide, by decide⟩

/-- C7: the claim asserts that a bare `#[from]` on a single-field struct
emits one conversion that default-constructs the value *via that field*.
Exactly one conversion with source type `u8` (the field's type) is emitted,
but its construction expression is `Self::default();`, whose tokens mention
neither the field `x` nor the conversion argument `v`: the converted value
is discarded rather than routed into the field. -/
theorem from_bare_single_field_eval :
    from_inner fromBareInput =
      .ok [⟨"u8", ["Self", "::", "default", "(", ")", ";"]⟩] ∧
    "x" ∉ ["Self", "::", "default", "(", ")", ";"] ∧
    "v" ∉ ["Self", "::", "default", "(", ")", ";"] := by
  refine ⟨by decide, by decide, by decide⟩

/-- C9: evaluation of the indexing arms of the immutable synthesizer.  For
plain `Index` and the range shapes full/from/to/inclusive, the declared
`Output` is computed from the wrapped type's indexing by the same shape as
the impl's argument; for `IndexToInclusive` the impl takes
`RangeToInclusive<usize>` but declares
`Output = <T as Index<RangeInclusive<usize>>>::Output` — a different
shape. -/
theorem index_output_shape_eval :
    Wrapper.into_token_stream2 .Index "T" (.idx 0) =
      some (.indexImpl .usize .usize "T" (.idx 0)) ∧
    Wrapper.into_token_stream2 .IndexRange "T" (.idx 0) =
      some (.indexImpl .range .range "T" (.idx 0)) ∧
    Wrapper.into_token_stream2 .IndexFull "T" (.idx 0) =
      some (.indexImpl .rangeFull .rangeFull "T" (.idx 0)) ∧
    Wrapper.into_token_stream2 .IndexFrom "T" (.idx 0) =
      some (.indexImpl .rangeFrom .rangeFrom "T" (.idx 0)) ∧
    Wrapper.into_token_stream2 .IndexTo "T" (.idx 0) =
      some (.indexImpl .rangeTo .rangeTo "T" (.idx 0)) ∧
    Wrapper.into_token_stream2 .IndexInclusive "T" (.idx 0) =
      some (.indexImpl .rangeInclusive .rangeInclusive "T" (.idx 0)) ∧
    Wrapper.into_token_stream2 .IndexToInclusive "T" (.idx 0) =
      some (.indexImpl .rangeToInclusive .rangeInclusive "T" (.idx 0)) ∧
    IdxArg.rangeToInclusive ≠ IdxArg.rangeInclusive := by
  refine ⟨rfl, rfl, rfl, rfl, rfl, rfl, rfl, by decide⟩

/-- C6 counterexample: the claim asserts a multi-field struct succeeds iff
exactly one field carries the `wrap` marker.  In `wrapTwiceFields` exactly
one of the two fields carries the marker, yet `get_params` fails: the scan
rejects the *second occurrence* of the marker even on the same field. -/
theorem wrap_marker_counterexample :
    (wrapTwiceFields.filter hasWrapMarker).length = 1 ∧
    wrapTwiceFields.length = 2 ∧
    get_params wrapTwiceInput = .error (.msg wrapTwiceMsg) := by
  refine ⟨by decide, by decide, by decide⟩

/-! ### Claim theorems: quantified properties -/

/-- C3: whenever the no-references marker occurs in the fully expanded
capability sequence, the final resolved set excludes the reference-access
and borrowing capabilities of that family — `AsRef`/`Borrow` for the
immutable family, `AsMut`/`BorrowMut` for the mutable family,
independently. -/
theorem norefs_overrides_references :
    (∀ (input : DeriveInput) (pre : List Wrapper),
        collectAttrs wrapperImmut input.attrs wrapperImmut.default_set =
          .ok pre →
        Wrapper.NoRefs ∈ pre →
        ∃ ws, get_wrappers wrapperImmut input = .ok ws ∧
          Wrapper.AsRef ∉ ws ∧ Wrapper.Borrow ∉ ws) ∧
    (∀ (input : DeriveInput) (pre : List WrapperMut),
        collectAttrs wrapperMut input.attrs wrapperMut.default_set =
          .ok pre →
        WrapperMut.NoRefs ∈ pre →
        ∃ ws, get_wrappers wrapperMut input = .ok ws ∧
          WrapperMut.AsMut ∉ ws ∧ WrapperMut.BorrowMut ∉ ws) := by
  constructor
  · intro input pre hc hm
    exact ⟨_, get_wrappers_eq_applyNoRefs _ _ _ hc,
      mem_applyNoRefs_excluded wrapperImmut pre hm rfl,
      mem_applyNoRefs_excluded wrapperImmut pre hm rfl⟩
  · intro input pre hc hm
    exact ⟨_, get_wrappers_eq_applyNoRefs _ _ _ hc,
      mem_applyNoRefs_excluded wrapperMut pre hm rfl,
      mem_applyNoRefs_excluded wrapperMut pre hm rfl⟩

/-- Witness for C3: `wrapper(NoRefs, AsRef)` resp.
`wrapper_mut(NoRefs, AsMut)` at concrete inputs. -/
theorem norefs_overrides_references_witness :
    (∃ ws, get_wrappers wrapperImmut
        (wrapperAttrInput "wrapper" ["NoRefs", "AsRef"]) = .ok ws ∧
      Wrapper.AsRef ∉ ws ∧ Wrapper.Borrow ∉ ws) ∧
    (∃ ws, get_wrappers wrapperMut
        (wrapperAttrInput "wrapper_mut" ["NoRefs", "AsMut"]) = .ok ws ∧
      WrapperMut.AsMut ∉ ws ∧ WrapperMut.BorrowMut ∉ ws) :=
  ⟨norefs_overrides_references.1 _ [.AsRef, .Borrow, .NoRefs, .AsRef]
      (by decide) (by decide),
   norefs_overrides_references.2 _ [.AsMut, .BorrowMut, .NoRefs, .AsMut]
      (by decide) (by decide)⟩

/-- C8: any enum declaration whose own (top-level) attribute list contains a
`from` attribute is rejected with the not-allowed-at-top-level diagnostic;
no conversions are emitted. -/
theorem from_enum_top_level_rejected :
    ∀ (input : DeriveInput) (vs : List Variant),
      input.data = .enum vs →
      (∃ a ∈ input.attrs, a.name = fromName) →
      from_inner input = .error (.msg fromTopLevelMsg) := by
  rintro input vs hdata ⟨a, ha, hname⟩
  have hany : (input.attrs.any fun a => a.name == fromName) = true :=
    List.any_eq_true.mpr ⟨a, ha, by simp [hname]⟩
  simp [from_inner, hdata, from_inner_enum, hany]

/-- Witness for C8: a concrete enum with a top-level bare `#[from]`. -/
theorem from_enum_top_level_rejected_witness :
    from_inner enumTopFromInput = .error (.msg fromTopLevelMsg) :=
  from_enum_top_level_rejected enumTopFromInput [⟨"V", .unit, []⟩] rfl
    ⟨⟨"from", .path⟩, by decide, rfl⟩

/-- C10: whenever the immutable-family generator produces output, that
output contains the `Wrapper` trait implementation and the reverse `From`
conversion for the resolved wrap target; and for an accepted struct with no
`wrapper` attribute at all, the output is exactly those two implementations
followed by the default capabilities (`AsRef`, `Borrow`). -/
theorem wrapper_core_impls :
    (∀ (input : DeriveInput) (res : List Fragment),
        wrapper_inner input = .ok res →
        ∃ field frm, get_params input = .ok (field, frm) ∧
          Fragment.wrapperTraitImpl frm field ∈ res ∧
          Fragment.reverseFromImpl frm field ∈ res) ∧
    (∀ (input : DeriveInput) (field : FieldRef) (frm : Ty),
        get_params input = .ok (field, frm) →
        (∀ a ∈ input.attrs, a.name ≠ "wrapper") →
        wrapper_inner input =
          .ok [.wrapperTraitImpl frm field, .reverseFromImpl frm field,
               .asRefImpl frm field, .borrowImpl frm field]) := by
  constructor
  · intro input res h
    unfold wrapper_inner at h
    cases hp : get_params input with
    | error e => simp only [hp, error_bind] at h; exact Except.noConfusion h
    | ok pr =>
      obtain ⟨field, frm⟩ := pr
      simp only [hp, ok_bind] at h
      cases hw : get_wrappers wrapperImmut input with
      | error e =>
        simp only [hw, error_bind] at h
        exact Except.noConfusion h
      | ok ws =>
        simp only [hw, ok_bind] at h
        cases hs : synthList frm field ws with
        | error e =>
          simp only [hs, error_bind] at h
          exact Except.noConfusion h
        | ok ds =>
          simp only [hs, ok_bind] at h
          cases h
          exact ⟨field, frm, rfl, by simp, by simp⟩
  · intro input field frm hp hattrs
    have hw := get_wrappers_default input hattrs
    unfold wrapper_inner
    simp only [hp, hw, ok_bind]
    rfl

/-- Witness for C10: a bare single-field tuple struct with no attributes. -/
theorem wrapper_core_impls_witness :
    wrapper_inner plainStructInput =
      .ok [.wrapperTraitImpl "u8" (.idx 0), .reverseFromImpl "u8" (.idx 0),
           .asRefImpl "u8" (.idx 0), .borrowImpl "u8" (.idx 0)] :=
  wrapper_core_impls.2 plainStructInput (.idx 0) "u8" rfl
    (by simp [plainStructInput])

/-! ### C5 amended: the capability list retains duplicates -/

lemma collectNested_closed {α : Type} (fp : FromPathImpl α)
    (hpop : ∀ (w : α) (acc : List α), fp.populate w acc = acc ++ fp.populate w []) :
    ∀ (qs : List String) (ws acc : List α),
      resolveNames fp qs = some ws →
      collectNested fp (qs.map .metaPath) acc =
        .ok (acc ++ ws.flatMap (fun w => fp.populate w [])) := by
  intro qs
  induction qs with
  | nil =>
    intro ws acc h
    cases h
    simp [collectNested]
  | cons n rest ih =>
    intro ws acc h
    unfold resolveNames at h
    cases hf : fp.from_path n with
    | none => rw [hf] at h; exact Option.noConfusion h
    | some w =>
      rw [hf] at h
      cases hr : resolveNames fp rest with
      | none => rw [hr] at h; exact Option.noConfusion h
      | some ws' =>
        rw [hr] at h
        cases h
        show collectNested fp (NestedMeta.metaPath n :: rest.map .metaPath) acc = _
        unfold collectNested
        simp only [hf]
        rw [hpop w acc, ih ws' (acc ++ fp.populate w []) hr,
            List.append_assoc, List.flatMap_cons]

lemma collectAttrs_single_list {α : Type} (fp : FromPathImpl α)
    (hpop : ∀ (w : α) (acc : List α), fp.populate w acc = acc ++ fp.populate w [])
    (qs : List String) (ws : List α)
    (h : resolveNames fp qs = some ws) :
    collectAttrs fp [⟨fp.IDENT, .list (qs.map .metaPath)⟩] fp.default_set =
      .ok (fp.default_set ++ ws.flatMap (fun w => fp.populate w [])) := by
  unfold collectAttrs
  rw [if_pos (by simp)]
  simp only []
  rw [collectNested_closed fp hpop qs ws fp.default_set h]
  rfl

/-- C5 amended: the final Requested Capability Set is the family's default
set followed by each named capability's expansion in attribute order, with
duplicates retained (nothing de-duplicates), and the no-references filter
applied at the end; construction order is preserved in the output. -/
theorem capability_set_retains_duplicates :
    (∀ (qs : List String) (ws : List Wrapper),
        resolveNames wrapperImmut qs = some ws →
        get_wrappers wrapperImmut (wrapperAttrInput "wrapper" qs) =
          .ok (applyNoRefs wrapperImmut (wrapperImmut.default_set ++
            ws.flatMap (fun w => wrapperImmut.populate w [])))) ∧
    (∀ (qs : List String) (ws : List WrapperMut),
        resolveNames wrapperMut qs = some ws →
        get_wrappers wrapperMut (wrapperAttrInput "wrapper_mut" qs) =
          .ok (applyNoRefs wrapperMut (wrapperMut.default_set ++
            ws.flatMap (fun w => wrapperMut.populate w [])))) := by
  constructor
  · intro qs ws h
    exact get_wrappers_eq_applyNoRefs wrapperImmut _ _
      (collectAttrs_single_list wrapperImmut (fun w acc => by cases w <;> rfl) qs ws h)
  · intro qs ws h
    exact get_wrappers_eq_applyNoRefs wrapperMut _ _
      (collectAttrs_single_list wrapperMut (fun w acc => by cases w <;> rfl) qs ws h)

/-- Witness for the amended C5 at `wrapper(AsRef, Hex)` and
`wrapper_mut(AsMut, BitAssign)`. -/
theorem capability_set_retains_duplicates_witness :
    get_wrappers wrapperImmut (wrapperAttrInput "wrapper" ["AsRef", "Hex"]) =
      .ok (applyNoRefs wrapperImmut (wrapperImmut.default_set ++
        [Wrapper.AsRef, Wrapper.Hex].flatMap (fun w => wrapperImmut.populate w []))) ∧
    get_wrappers wrapperMut (wrapperAttrInput "wrapper_mut" ["AsMut", "BitAssign"]) =
      .ok (applyNoRefs wrapperMut (wrapperMut.default_set ++
        [WrapperMut.AsMut, WrapperMut.BitAssign].flatMap (fun w => wrapperMut.populate w []))) :=
  ⟨capability_set_retains_duplicates.1 ["AsRef", "Hex"] [.AsRef, .Hex] rfl,
   capability_set_retains_duplicates.2 ["AsMut", "BitAssign"] [.AsMut, .BitAssign] rfl⟩


/-! ### C6 amended: wrap-target resolution by marker-occurrence count -/

lemma scanAttrs_zero {α : Type} (mk : Except Err α) :
    ∀ (as : List Attr) (src : Option α),
      (as.filter (fun a => a.name == wrapName)).length = 0 →
      wrapScanAttrs mk as src = .ok src := by
  intro as
  induction as with
  | nil => intro src _; rfl
  | cons a rest ih =>
    intro src h
    rw [List.filter_cons] at h
    by_cases hname : (a.name == wrapName) = true
    · rw [if_pos hname] at h
      simp at h
    · rw [if_neg hname] at h
      unfold wrapScanAttrs
      rw [if_neg hname]
      exact ih src h

lemma scanAttrs_some_err {α : Type} (mk : Except Err α) :
    ∀ (as : List Attr) (v : α),
      1 ≤ (as.filter (fun a => a.name == wrapName)).length →
      wrapScanAttrs mk as (some v) = .error (.msg wrapTwiceMsg) := by
  intro as
  induction as with
  | nil => intro v h; simp at h
  | cons a rest ih =>
    intro v h
    by_cases hname : (a.name == wrapName) = true
    · unfold wrapScanAttrs
      rw [if_pos hname]
    · unfold wrapScanAttrs
      rw [if_neg hname]
      apply ih
      rw [List.filter_cons, if_neg hname] at h
      exact h

lemma scanAttrs_one {α : Type} (mk : Except Err α) (v : α) (hmk : mk = .ok v) :
    ∀ (as : List Attr),
      (as.filter (fun a => a.name == wrapName)).length = 1 →
      wrapScanAttrs mk as none = .ok (some v) := by
  intro as
  induction as with
  | nil => intro h; simp at h
  | cons a rest ih =>
    intro h
    rw [List.filter_cons] at h
    by_cases hname : (a.name == wrapName) = true
    · rw [if_pos hname] at h
      simp only [List.length_cons, Nat.add_left_eq_self] at h
      unfold wrapScanAttrs
      rw [if_pos hname]
      show (mk >>= fun v => wrapScanAttrs mk rest (some v)) = _
      rw [hmk, ok_bind]
      exact scanAttrs_zero (Except.ok v) rest (some v) h
    · rw [if_neg hname] at h
      unfold wrapScanAttrs
      rw [if_neg hname]
      exact ih h

lemma scanAttrs_two {α : Type} (mk : Except Err α) (v : α) (hmk : mk = .ok v) :
    ∀ (as : List Attr),
      2 ≤ (as.filter (fun a => a.name == wrapName)).length →
      wrapScanAttrs mk as none = .error (.msg wrapTwiceMsg) := by
  intro as
  induction as with
  | nil => intro h; simp at h
  | cons a rest ih =>
    intro h
    rw [List.filter_cons] at h
    by_cases hname : (a.name == wrapName) = true
    · rw [if_pos hname] at h
      simp only [List.length_cons] at h
      unfold wrapScanAttrs
      rw [if_pos hname]
      show (mk >>= fun v => wrapScanAttrs mk rest (some v)) = _
      rw [hmk, ok_bind]
      exact scanAttrs_some_err (Except.ok v) rest v (by omega)
    · rw [if_neg hname] at h
      unfold wrapScanAttrs
      rw [if_neg hname]
      exact ih h


lemma wrapTotal_cons (f : SynField) (rest : List SynField) :
    wrapTotal (f :: rest) = fieldWrapCount f + wrapTotal rest := by
  simp [wrapTotal]

lemma fieldWrapCount_def (f : SynField) :
    fieldWrapCount f = (f.attrs.filter (fun a => a.name == wrapName)).length :=
  rfl

lemma scanFields_zero {α : Type} (mk : SynField → Nat → Except Err α) :
    ∀ (fs : List SynField) (i : Nat) (src : Option α),
      wrapTotal fs = 0 →
      wrapScanFields mk fs i src = .ok src := by
  intro fs
  induction fs with
  | nil => intro i src _; rfl
  | cons f rest ih =>
    intro i src h
    rw [wrapTotal_cons] at h
    have hf : fieldWrapCount f = 0 := by omega
    have hr : wrapTotal rest = 0 := by omega
    unfold wrapScanFields
    rw [scanAttrs_zero (mk f i) f.attrs src hf, ok_bind]
    exact ih (i + 1) src hr

lemma scanFields_dup_some {α : Type} (mk : SynField → Nat → Except Err α) :
    ∀ (fs : List SynField) (i : Nat) (v : α),
      1 ≤ wrapTotal fs →
      wrapScanFields mk fs i (some v) = .error (.msg wrapTwiceMsg) := by
  intro fs
  induction fs with
  | nil => intro i v h; simp [wrapTotal] at h
  | cons f rest ih =>
    intro i v h
    rw [wrapTotal_cons] at h
    by_cases hf : fieldWrapCount f = 0
    · unfold wrapScanFields
      rw [scanAttrs_zero (mk f i) f.attrs (some v) hf, ok_bind]
      exact ih (i + 1) v (by omega)
    · unfold wrapScanFields
      rw [scanAttrs_some_err (mk f i) f.attrs v
            (by rw [← fieldWrapCount_def]; omega), error_bind]

lemma scanFields_one {α : Type} (mk : SynField → Nat → Except Err α) :
    ∀ (fs : List SynField),
      (∀ f ∈ fs, ∀ j, ∃ v, mk f j = .ok v) →
      wrapTotal fs = 1 →
      ∀ i, ∃ v, wrapScanFields mk fs i none = .ok (some v) := by
  intro fs
  induction fs with
  | nil => intro _ h; simp [wrapTotal] at h
  | cons f rest ih =>
    intro hmk h i
    rw [wrapTotal_cons] at h
    by_cases hf : fieldWrapCount f = 0
    · have hr : wrapTotal rest = 1 := by omega
      obtain ⟨v, hv⟩ := ih (fun g hg => hmk g (List.mem_cons_of_mem f hg)) hr (i + 1)
      refine ⟨v, ?_⟩
      unfold wrapScanFields
      rw [scanAttrs_zero (mk f i) f.attrs none hf, ok_bind]
      exact hv
    · have hf1 : fieldWrapCount f = 1 := by omega
      have hr : wrapTotal rest = 0 := by omega
      obtain ⟨v, hv⟩ := hmk f (List.mem_cons_self f rest) i
      refine ⟨v, ?_⟩
      unfold wrapScanFields
      rw [scanAttrs_one (mk f i) v hv f.attrs hf1, ok_bind]
      exact scanFields_zero mk rest (i + 1) (some v) hr

lemma scanFields_two {α : Type} (mk : SynField → Nat → Except Err α) :
    ∀ (fs : List SynField),
      (∀ f ∈ fs, ∀ j, ∃ v, mk f j = .ok v) →
      2 ≤ wrapTotal fs →
      ∀ i, wrapScanFields mk fs i none = .error (.msg wrapTwiceMsg) := by
  intro fs
  induction fs with
  | nil => intro _ h; simp [wrapTotal] at h
  | cons f rest ih =>
    intro hmk h i
    rw [wrapTotal_cons] at h
    by_cases hf : fieldWrapCount f = 0
    · unfold wrapScanFields
      rw [scanAttrs_zero (mk f i) f.attrs none hf, ok_bind]
      exact ih (fun g hg => hmk g (List.mem_cons_of_mem f hg)) (by omega) (i + 1)
    · by_cases hf1 : fieldWrapCount f = 1
      · obtain ⟨v, hv⟩ := hmk f (List.mem_cons_self f rest) i
        unfold wrapScanFields
        rw [scanAttrs_one (mk f i) v hv f.attrs hf1, ok_bind]
        exact scanFields_dup_some mk rest (i + 1) v (by omega)
      · obtain ⟨v, hv⟩ := hmk f (List.mem_cons_self f rest) i
        unfold wrapScanFields
        rw [scanAttrs_two (mk f i) v hv f.attrs
              (by rw [← fieldWrapCount_def]; omega), error_bind]


lemma get_params_named_iff :
    ∀ (input : DeriveInput) (fs : List SynField),
      input.data = .struct (.named fs) →
      (∀ f ∈ fs, f.ident.isSome = true) →
      ((∃ r, get_params input = .ok r) ↔
        (wrapTotal fs = 1 ∨ (wrapTotal fs = 0 ∧ fs.length = 1))) := by
  intro input fs hdata hid
  have hmk : ∀ f ∈ fs, ∀ j, ∃ v, mkNamed f j = .ok v := by
    intro f hf j
    obtain ⟨id, hident⟩ := Option.isSome_iff_exists.mp (hid f hf)
    exact ⟨(.named id, f.ty), by simp [mkNamed, hident]⟩
  unfold get_params
  rw [hdata]
  cases fs with
  | nil =>
    simp [wrapTotal]
  | cons f0 rest =>
    simp only [List.head?_cons]
    cases htot : wrapTotal (f0 :: rest) with
    | zero =>
      rw [scanFields_zero mkNamed (f0 :: rest) 0 none htot, ok_bind]
      cases rest with
      | nil =>
        obtain ⟨id, hident⟩ :=
          Option.isSome_iff_exists.mp (hid f0 (List.mem_cons_self f0 []))
        simp [hident]
      | cons f1 rest' =>
        simp [htot]
    | succ n =>
      cases n with
      | zero =>
        obtain ⟨v, hv⟩ := scanFields_one mkNamed (f0 :: rest) hmk htot 0
        rw [hv, ok_bind]
        simp [htot]
      | succ m =>
        rw [scanFields_two mkNamed (f0 :: rest) hmk (by omega) 0, error_bind]
        simp [htot]


lemma get_params_unnamed_iff :
    ∀ (input : DeriveInput) (fs : List SynField),
      input.data = .struct (.unnamed fs) →
      ((∃ r, get_params input = .ok r) ↔
        (wrapTotal fs = 1 ∨ (wrapTotal fs = 0 ∧ fs.length = 1))) := by
  intro input fs hdata
  have hmk : ∀ f ∈ fs, ∀ j, ∃ v, mkUnnamed f j = .ok v :=
    fun f _ j => ⟨(.idx j, f.ty), rfl⟩
  unfold get_params
  rw [hdata]
  cases fs with
  | nil => simp [wrapTotal]
  | cons f0 rest =>
    simp only [List.head?_cons]
    cases htot : wrapTotal (f0 :: rest) with
    | zero =>
      rw [scanFields_zero mkUnnamed (f0 :: rest) 0 none htot, ok_bind]
      cases rest with
      | nil => simp
      | cons f1 rest' => simp
    | succ n =>
      cases n with
      | zero =>
        obtain ⟨v, hv⟩ := scanFields_one mkUnnamed (f0 :: rest) hmk htot 0
        rw [hv, ok_bind]
        simp
      | succ m =>
        rw [scanFields_two mkUnnamed (f0 :: rest) hmk (by omega) 0, error_bind]
        simp

lemma get_params_sole_named :
    ∀ (input : DeriveInput) (f : SynField) (id : String),
      input.data = .struct (.named [f]) →
      f.ident = some id →
      fieldWrapCount f ≤ 1 →
      get_params input = .ok (.named id, f.ty) := by
  intro input f id hdata hident hcnt
  unfold get_params
  rw [hdata]
  simp only [List.head?_cons]
  by_cases hc : fieldWrapCount f = 0
  · rw [scanFields_zero mkNamed [f] 0 none (by simp [wrapTotal, hc]), ok_bind]
    simp [hident]
  · have hc1 : fieldWrapCount f = 1 := by omega
    have hv : mkNamed f 0 = .ok (.named id, f.ty) := by simp [mkNamed, hident]
    unfold wrapScanFields
    rw [scanAttrs_one (mkNamed f 0) _ hv f.attrs hc1, ok_bind]
    rfl

lemma get_params_sole_unnamed :
    ∀ (input : DeriveInput) (f : SynField),
      input.data = .struct (.unnamed [f]) →
      fieldWrapCount f ≤ 1 →
      get_params input = .ok (.idx 0, f.ty) := by
  intro input f hdata hcnt
  unfold get_params
  rw [hdata]
  simp only [List.head?_cons]
  by_cases hc : fieldWrapCount f = 0
  · rw [scanFields_zero mkUnnamed [f] 0 none (by simp [wrapTotal, hc]), ok_bind]
    simp
  · have hc1 : fieldWrapCount f = 1 := by omega
    unfold wrapScanFields
    rw [scanAttrs_one (mkUnnamed f 0) _ rfl f.attrs hc1, ok_bind]
    rfl


/-- C6 amended: the wrapper-target resolver rejects enums, unions and unit
structs; for a struct it succeeds iff either exactly one `wrap` marker
occurrence exists across all fields, or no marker exists and the struct has
exactly one field (a marker repeated even on a single field is fatal, like
multiple marked fields); a sole field is selected whenever its marker count
is at most one.  Named-struct cases assume every named field carries an
identifier, as `syn` guarantees. -/
theorem wrap_target_resolution_amended :
    (∀ (input : DeriveInput) (fs : List SynField),
        input.data = .struct (.named fs) →
        (∀ f ∈ fs, f.ident.isSome = true) →
        ((∃ r, get_params input = .ok r) ↔
          (wrapTotal fs = 1 ∨ (wrapTotal fs = 0 ∧ fs.length = 1)))) ∧
    (∀ (input : DeriveInput) (fs : List SynField),
        input.data = .struct (.unnamed fs) →
        ((∃ r, get_params input = .ok r) ↔
          (wrapTotal fs = 1 ∨ (wrapTotal fs = 0 ∧ fs.length = 1)))) ∧
    (∀ (input : DeriveInput) (f : SynField) (id : String),
        input.data = .struct (.named [f]) →
        f.ident = some id →
        fieldWrapCount f ≤ 1 →
        get_params input = .ok (.named id, f.ty)) ∧
    (∀ (input : DeriveInput) (f : SynField),
        input.data = .struct (.unnamed [f]) →
        fieldWrapCount f ≤ 1 →
        get_params input = .ok (.idx 0, f.ty)) ∧
    (∀ (input : DeriveInput), input.data = .struct .unit →
        get_params input = .error (.msg wrapUnitMsg)) ∧
    (∀ (input : DeriveInput) (vs : List Variant), input.data = .enum vs →
        get_params input = .error (.msg wrapEnumMsg)) ∧
    (∀ (input : DeriveInput) (fs : List SynField), input.data = .union fs →
        get_params input = .error (.msg wrapUnionMsg)) := by
  refine ⟨get_params_named_iff, get_params_unnamed_iff, get_params_sole_named,
    get_params_sole_unnamed, ?_, ?_, ?_⟩
  · intro input h
    unfold get_params
    rw [h]
  · intro input vs h
    unfold get_params
    rw [h]
  · intro input fs h
    unfold get_params
    rw [h]

/-- Witness for the amended C6: a marked two-field struct, a plain
single-field struct, and the unit/enum/union rejections. -/
theorem wrap_target_resolution_amended_witness :
    ((∃ r, get_params wrapMarkedInput = .ok r) ↔
      (wrapTotal [⟨some "a", "u8", []⟩, ⟨some "b", "u16", [⟨"wrap", .path⟩]⟩] = 1 ∨
        (wrapTotal [⟨some "a", "u8", []⟩, ⟨some "b", "u16", [⟨"wrap", .path⟩]⟩] = 0 ∧
          ([⟨some "a", "u8", []⟩, ⟨some "b", "u16", [⟨"wrap", .path⟩]⟩] :
            List SynField).length = 1))) ∧
    get_params plainStructInput = .ok (.idx 0, "u8") ∧
    get_params ⟨"S", [], .struct .unit⟩ = .error (.msg wrapUnitMsg) ∧
    get_params ⟨"E", [], .enum [⟨"V", .unit, []⟩]⟩ = .error (.msg wrapEnumMsg) ∧
    get_params ⟨"U", [], .union [⟨some "a", "u8", []⟩]⟩ =
      .error (.msg wrapUnionMsg) :=
  ⟨wrap_target_resolution_amended.1 wrapMarkedInput _ rfl (by decide),
   wrap_target_resolution_amended.2.2.2.1 plainStructInput ⟨none, "u8", []⟩ rfl
     (by decide),
   wrap_target_resolution_amended.2.2.2.2.1 ⟨"S", [], .struct .unit⟩ rfl,
   wrap_target_resolution_amended.2.2.2.2.2.1 ⟨"E", [], .enum [⟨"V", .unit, []⟩]⟩
     [⟨"V", .unit, []⟩] rfl,
   wrap_target_resolution_amended.2.2.2.2.2.2 ⟨"U", [], .union [⟨some "a", "u8", []⟩]⟩
     [⟨some "a", "u8", []⟩] rfl⟩


end AmplifyDerive
